import Mathlib

/-!
Shallow embedding of `consensus/src/dag/dag_store.rs` (the DAG store of a
round-based BFT consensus core) together with the external collaborators it
uses, and proofs of the specification claims about it.

Machine integers (`Round = u64`, `usize`) are modelled as `Nat`; rounds in this
store stay far from `2^64`, and the Rust code has no intentional wraparound.
`BTreeMap<Round, Vec<Option<NodeStatus>>>` is modelled as an association list
with (at most) one entry per round, observed only through key lookup and
minimum/maximum key, which is all the Rust code uses. `HashMap<Author, usize>`
is likewise an association list observed through lookup and length.
-/

namespace DagStore

abbrev Author := Nat
abbrev Round := Nat
abbrev Epoch := Nat
abbrev Digest := Nat

/-- `NodeMetadata` from `consensus-types`: `(epoch, round, author)`. -/
structure NodeMetadata where
  epoch : Epoch
  round : Round
  author : Author
deriving DecidableEq, Repr

/-- `NodeCertificate`: a node's metadata plus its quorum proof (opaque here). -/
structure NodeCertificate where
  metadata : NodeMetadata
  sigs : Nat
deriving DecidableEq, Repr

/-- `CertifiedNode`: metadata, declared parent certificates, and its own
quorum proof; payload beyond that is opaque to the store. -/
structure CertifiedNode where
  metadata : NodeMetadata
  parents : List NodeCertificate
  sigs : Nat
deriving DecidableEq, Repr

/-- `CertifiedNode::certificate()`: the node's own certificate. -/
def CertifiedNode.certificate (n : CertifiedNode) : NodeCertificate :=
  ⟨n.metadata, n.sigs⟩

/-- `NodeStatus`: tri-state lifecycle tag wrapping the stored node. -/
inductive NodeStatus where
  | unordered (node : CertifiedNode)
  | ordered (node : CertifiedNode)
  | committed (node : CertifiedNode)
deriving DecidableEq, Repr

/-- `NodeStatus::as_node`: the wrapped node, whatever the tag. -/
def NodeStatus.as_node : NodeStatus → CertifiedNode
  | .unordered n => n
  | .ordered n => n
  | .committed n => n

/-- Association-list lookup, the observation we use for both the `BTreeMap`
and the `HashMap` of the Rust code. -/
def alookup {β : Type} : List (Nat × β) → Nat → Option β
  | [], _ => none
  | (k, v) :: rest, key => if k = key then some v else alookup rest key

/-- Minimum key of an association list (`BTreeMap::first_key_value`). -/
def minKey : List Nat → Option Nat
  | [] => none
  | k :: rest =>
    some (match minKey rest with
          | none => k
          | some m => min k m)

/-- Maximum key of an association list (`BTreeMap::last_key_value`). -/
def maxKey : List Nat → Option Nat
  | [] => none
  | k :: rest =>
    some (match maxKey rest with
          | none => k
          | some m => max k m)

/-- One per-round row of slots, one slot per validator index. -/
abbrev Row := List (Option NodeStatus)

/-- The `nodes_by_round` index: round keyed rows. -/
abbrev NodesByRound := List (Round × Row)

/-- `BTreeMap::entry(round).or_insert_with(default)`: keep the map unchanged
when the key is present, otherwise add the default row. -/
def entryOrInsert (m : NodesByRound) (r : Round) (v : Row) : NodesByRound :=
  if (alookup m r).isSome then m else m ++ [(r, v)]

/-- Apply `f` to the row stored at round `r` (in-place row mutation through
the `&mut` reference the Rust code holds). -/
def updateRow : NodesByRound → Round → (Row → Row) → NodesByRound
  | [], _, _ => []
  | (k, row) :: rest, r, f =>
    if k = r then (k, f row) :: updateRow rest r f
    else (k, row) :: updateRow rest r f

/-- `round_ref[index] = some status`. -/
def setSlot (m : NodesByRound) (r : Round) (i : Nat) (v : Option NodeStatus) :
    NodesByRound :=
  updateRow m r (fun row => row.set i v)

/-- Modelled from the spec: the persistence collaborator (`DAGStorage`), an
external trait whose implementation is not under `src/`. It is a durable map
from digest to certified node; `saveFails`/`deleteFails`/`getFails` model the
failure behaviour of its fallible operations. -/
structure DAGStorage where
  certifiedNodes : List (Digest × CertifiedNode)
  saveFails : CertifiedNode → Bool
  deleteFails : Bool
  getFails : Bool

/-- `get_certified_nodes()`, with `unwrap_or_default` on failure. -/
def DAGStorage.get_certified_nodes (s : DAGStorage) :
    List (Digest × CertifiedNode) :=
  if s.getFails then [] else s.certifiedNodes

/-- `save_certified_node(node)`: `none` models the propagated error. -/
def DAGStorage.save_certified_node (s : DAGStorage) (n : CertifiedNode) :
    Option DAGStorage :=
  if s.saveFails n then none
  else some { s with certifiedNodes := s.certifiedNodes ++ [(0, n)] }

/-- `delete_certified_nodes(digests)`: failure is logged and swallowed, so the
result is always a storage state. -/
def DAGStorage.delete_certified_nodes (s : DAGStorage) (digests : List Digest) :
    DAGStorage :=
  if s.deleteFails then s
  else { s with
         certifiedNodes :=
           s.certifiedNodes.filter (fun p => !(digests.contains p.1)) }

/-- Modelled from the spec: the per-epoch voting-power oracle
(`ValidatorVerifier`, external, not under `src/`): each validator carries a
voting power, and quorum is the 2f+1-equivalent weighted threshold. -/
structure ValidatorVerifier where
  votingPowers : List (Author × Nat)

/-- Modelled from the spec: `address_to_validator_index()`, the stable dense
index assignment over the epoch's validators. -/
def ValidatorVerifier.address_to_validator_index (vv : ValidatorVerifier) :
    List (Author × Nat) :=
  (vv.votingPowers.enum).map (fun p => (p.2.1, p.1))

def ValidatorVerifier.total_voting_power (vv : ValidatorVerifier) : Nat :=
  (vv.votingPowers.map Prod.snd).sum

/-- Modelled from the spec: the quorum threshold, a 2f+1-equivalent weight
(strictly more than two thirds of the total voting power). -/
def ValidatorVerifier.quorum_voting_power (vv : ValidatorVerifier) : Nat :=
  2 * vv.total_voting_power / 3 + 1

/-- Sum of the authors' voting powers; `none` when an author is unknown. -/
def ValidatorVerifier.sum_voting_power (vv : ValidatorVerifier) :
    List Author → Option Nat
  | [] => some 0
  | a :: rest =>
    match alookup vv.votingPowers a, vv.sum_voting_power rest with
    | some p, some s => some (p + s)
    | _, _ => none

/-- Modelled from the spec: `check_voting_power(authors)` — do the given
authors together meet the quorum weight? -/
def ValidatorVerifier.check_voting_power (vv : ValidatorVerifier)
    (authors : List Author) : Bool :=
  match vv.sum_voting_power authors with
  | none => false
  | some s => vv.quorum_voting_power ≤ s

/-- The `Dag` aggregate. -/
structure Dag where
  nodes_by_round : NodesByRound
  author_to_index : List (Author × Nat)
  storage : DAGStorage

/-- Errors of the admission / status paths (the Rust code reports them as
`anyhow` messages; the spec names them). -/
inductive DagError where
  | unknownAuthor
  | roundTooLow
  | roundTooHigh
  | missingParent
  | duplicateNode
  | persistenceError
  | notFound
  | invalidTransition
deriving DecidableEq, Repr

def Dag.lowest_round (d : Dag) : Round :=
  (minKey (d.nodes_by_round.map Prod.fst)).getD 0

def Dag.highest_round (d : Dag) : Round :=
  (maxKey (d.nodes_by_round.map Prod.fst)).getD 0

/-- `get_node_ref`. -/
def Dag.get_node_ref (d : Dag) (metadata : NodeMetadata) : Option NodeStatus :=
  match alookup d.author_to_index metadata.author with
  | none => none
  | some index =>
    match alookup d.nodes_by_round metadata.round with
    | none => none
    | some row => row.getD index none

def Dag.node_exists (d : Dag) (metadata : NodeMetadata) : Bool :=
  (d.get_node_ref metadata).isSome

def Dag.all_exists (d : Dag) (nodes : List NodeCertificate) : Bool :=
  nodes.all (fun certificate => d.node_exists certificate.metadata)

def Dag.get_node (d : Dag) (metadata : NodeMetadata) : Option CertifiedNode :=
  (d.get_node_ref metadata).map (fun ns => ns.as_node)

/-- `add_node`. The Rust method mutates `&mut self` and returns a `Result`;
here the pair carries the error (if any) together with the state as left by
the call, so partial mutation on failure is observable. -/
def Dag.add_node (d : Dag) (node : CertifiedNode) : Option DagError × Dag :=
  match alookup d.author_to_index node.metadata.author with
  | none => (some .unknownAuthor, d)
  | some index =>
    let round := node.metadata.round
    if round < d.lowest_round then (some .roundTooLow, d)
    else if d.highest_round + 1 < round then (some .roundTooHigh, d)
    else if !(node.parents.all (fun parent => d.node_exists parent.metadata))
    then (some .missingParent, d)
    else
      let d1 : Dag :=
        { d with
          nodes_by_round :=
            entryOrInsert d.nodes_by_round round
              (List.replicate d.author_to_index.length none) }
      let row := (alookup d1.nodes_by_round round).getD []
      if (row.getD index none).isSome then (some .duplicateNode, d1)
      else
        match d.storage.save_certified_node node with
        | none => (some .persistenceError, d1)
        | some storage1 =>
          (none,
           { d1 with
             nodes_by_round :=
               setSlot d1.nodes_by_round round index
                 (some (.unordered node)),
             storage := storage1 })

/-- One loading step of `Dag::new`: insert an epoch-matching certified node at
`(round, index)`, allocating the round's row when absent. -/
def insertLoaded (numValidators : Nat) (m : NodesByRound) (index : Nat)
    (round : Round) (n : CertifiedNode) : NodesByRound :=
  setSlot (entryOrInsert m round (List.replicate numValidators none))
    round index (some (.unordered n))

/-- The load loop of `Dag::new` over `all_nodes`: `none` models the
`expect("Author from certified node should exist")` panic. Returns the built
round index together with the digests of stale-epoch nodes. -/
def newLoop (author_to_index : List (Author × Nat)) (epoch : Epoch) :
    List (Digest × CertifiedNode) → NodesByRound → List Digest →
    Option (NodesByRound × List Digest)
  | [], m, expired => some (m, expired)
  | (digest, certified_node) :: rest, m, expired =>
    if certified_node.metadata.epoch = epoch then
      match alookup author_to_index certified_node.metadata.author with
      | none => none
      | some index =>
        newLoop author_to_index epoch rest
          (insertLoaded author_to_index.length m index
            certified_node.metadata.round certified_node)
          expired
    else
      newLoop author_to_index epoch rest m (expired ++ [digest])

/-- `Dag::new(epoch_state, storage)`; `none` models the construction panic on
an author missing from the oracle's index mapping. -/
def Dag.new (epoch : Epoch) (vv : ValidatorVerifier) (storage : DAGStorage) :
    Option Dag :=
  let author_to_index := vv.address_to_validator_index
  let all_nodes := storage.get_certified_nodes
  match newLoop author_to_index epoch all_nodes [] [] with
  | none => none
  | some (nodes_by_round, expired) =>
    some
      { nodes_by_round := nodes_by_round,
        author_to_index := author_to_index,
        storage := storage.delete_certified_nodes expired }

/-- `get_strong_links_for_round`. -/
def Dag.get_strong_links_for_round (d : Dag) (round : Round)
    (validator_verifier : ValidatorVerifier) : Option (List NodeCertificate) :=
  match alookup d.nodes_by_round round with
  | none => none
  | some row =>
    let all_nodes_in_round := row.filterMap id
    if validator_verifier.check_voting_power
        (all_nodes_in_round.map (fun ns => ns.as_node.metadata.author))
    then some (all_nodes_in_round.map (fun ns => ns.as_node.certificate))
    else none

/-- `bitmask`: the Rust body is `todo!()`, which panics unconditionally;
modelled as the always-absent result. -/
def Dag.bitmask (_d : Dag) : Option (List (List Bool)) :=
  none

end DagStore

namespace DagStore

/-- The slot stored at `(round, index)`, the store's basic observable. -/
def Dag.slotAt (d : Dag) (r : Round) (i : Nat) : Option NodeStatus :=
  match alookup d.nodes_by_round r with
  | none => none
  | some row => row.getD i none

/-- The statuses of the populated slots of round `r` (in slot order); the
empty list when the round has no row. -/
def Dag.roundStatuses (d : Dag) (r : Round) : List NodeStatus :=
  ((alookup d.nodes_by_round r).getD []).filterMap id

/-- The lifecycle tag of a stored status. -/
inductive StatusTag where
  | unordered
  | ordered
  | committed
deriving DecidableEq, Repr

def NodeStatus.tag : NodeStatus → StatusTag
  | .unordered _ => .unordered
  | .ordered _ => .ordered
  | .committed _ => .committed

/-- Position of a tag in the forward lifecycle order. -/
def StatusTag.rank : StatusTag → Nat
  | .unordered => 0
  | .ordered => 1
  | .committed => 2

/-- Wrap a node under the given tag. -/
def mkStatus (t : StatusTag) (n : CertifiedNode) : NodeStatus :=
  match t with
  | .unordered => .unordered n
  | .ordered => .ordered n
  | .committed => .committed n

/-- Modelled from the spec: the status-transition operation of §4.5, which the
ordering/commit rule invokes; the operation itself is absent from `src/` (the
source file only constructs `Unordered` statuses). Per the spec, a transition
to a tag strictly forward of the current one retags the slot in place and
preserves the wrapped node; a backward or no-op transition is
`InvalidTransition`, and a transition on a non-existent node is `NotFound`. -/
def Dag.update_node_status (d : Dag) (metadata : NodeMetadata)
    (target : StatusTag) : Except DagError Dag :=
  match alookup d.author_to_index metadata.author with
  | none => .error .notFound
  | some index =>
    match alookup d.nodes_by_round metadata.round with
    | none => .error .notFound
    | some row =>
      match row.getD index none with
      | none => .error .notFound
      | some status =>
        if status.tag.rank < target.rank then
          .ok
            { d with
              nodes_by_round :=
                setSlot d.nodes_by_round metadata.round index
                  (some (mkStatus target status.as_node)) }
        else .error .invalidTransition

/-- The empty store over the epoch's oracle, before any admission. -/
def initialDag (vv : ValidatorVerifier) (storage : DAGStorage) : Dag :=
  { nodes_by_round := [],
    author_to_index := vv.address_to_validator_index,
    storage := storage }

/-- The current-epoch nodes of a persisted node set (stale epochs excluded). -/
def currentEpochNodes (epoch : Epoch) (l : List (Digest × CertifiedNode)) :
    List CertifiedNode :=
  (l.filter (fun p => p.2.metadata.epoch = epoch)).map Prod.snd

/-- Nodes listed in (non-strict) round order. -/
def sortByRound (l : List CertifiedNode) : List CertifiedNode :=
  l.insertionSort (fun a b => a.metadata.round ≤ b.metadata.round)

/-- Admit the nodes one by one with `add_node`; `none` when an admission
fails. -/
def replay (d : Dag) : List CertifiedNode → Option Dag
  | [] => some d
  | n :: rest =>
    match d.add_node n with
    | (none, d1) => replay d1 rest
    | (some _, _) => none

/-- The pure round-index effect of loading one node (shared by `Dag.new` and
a successful `add_node`); the author is looked up in the index mapping. -/
def loadStep (author_to_index : List (Author × Nat)) (m : NodesByRound)
    (n : CertifiedNode) : NodesByRound :=
  match alookup author_to_index n.metadata.author with
  | none => m
  | some index => insertLoaded author_to_index.length m index n.metadata.round n

/-- Fill the slots of one row in sequence. -/
def applyRound (row : Row) : List (Nat × CertifiedNode) → Row
  | [] => row
  | (i, n) :: rest => applyRound (row.set i (some (.unordered n))) rest

/-- The `(index, node)` pairs of a node list, restricted to round `r`. -/
def roundItems (author_to_index : List (Author × Nat)) (r : Round)
    (l : List CertifiedNode) : List (Nat × CertifiedNode) :=
  (l.filter (fun n => n.metadata.round = r)).map
    (fun n => ((alookup author_to_index n.metadata.author).getD 0, n))

/-- The `(round, index)` slot key a node is admitted under. -/
def nodeKey (ati : List (Author × Nat)) (n : CertifiedNode) : Round × Nat :=
  (n.metadata.round, (alookup ati n.metadata.author).getD 0)

/-- Structural well-formedness the store maintains: every row is as wide as
the validator set (spec invariant I1), and the index mapping is into that
width. -/
def DagWF (d : Dag) : Prop :=
  (∀ r row, alookup d.nodes_by_round r = some row →
    row.length = d.author_to_index.length) ∧
  (∀ a i, alookup d.author_to_index a = some i → i < d.author_to_index.length)

/-! ### Concrete values used to instantiate the theorems -/

/-- A 4-validator epoch with unit voting powers (quorum weight 3). -/
def exVV : ValidatorVerifier := ⟨[(0, 1), (1, 1), (2, 1), (3, 1)]⟩

/-- A storage whose writes succeed. -/
def exStorageOK : DAGStorage := ⟨[], fun _ => false, false, false⟩

/-- A storage whose writes fail deterministically. -/
def exStorageFail : DAGStorage := ⟨[], fun _ => true, false, false⟩

def mkNode (e r a : Nat) (ps : List NodeCertificate) : CertifiedNode :=
  ⟨⟨e, r, a⟩, ps, 0⟩

/-- An empty store over `exVV`. -/
def exDag0 : Dag := initialDag exVV exStorageOK

/-- `exDag0` after admitting a genesis node from author 0. -/
def exDag1 : Dag := (exDag0.add_node (mkNode 0 0 0 [])).2

/-- A persisted node set: genesis nodes from authors 0 and 1, and a round-1
node from author 0, listed out of round order. -/
def exStored : DAGStorage :=
  ⟨[(1, mkNode 0 1 0 [⟨⟨0, 0, 0⟩, 0⟩, ⟨⟨0, 0, 1⟩, 0⟩]),
    (2, mkNode 0 0 0 []),
    (3, mkNode 0 0 1 [])],
   fun _ => false, false, false⟩

/-- The store rehydrated from `exStored`. -/
def exNewDag : Dag := (Dag.new 0 exVV exStored).getD exDag0

/-- The store replayed from `exStored`'s nodes in round order. -/
def exReplayDag : Dag :=
  (replay (initialDag exVV exStorageOK)
    (sortByRound (currentEpochNodes 0 exStored.get_certified_nodes))).getD exDag0

/-! ### Basic lemmas about the map model -/

theorem alookup_append {β : Type} (l₁ l₂ : List (Nat × β)) (k : Nat) :
    alookup (l₁ ++ l₂) k =
      match alookup l₁ k with
      | some v => some v
      | none => alookup l₂ k := by
  induction l₁ with
  | nil => simp [alookup]
  | cons p rest ih =>
    by_cases h : p.1 = k <;> simp [alookup, h, ih]

theorem alookup_entryOrInsert (m : NodesByRound) (r : Round) (v : Row)
    (r' : Round) :
    alookup (entryOrInsert m r v) r' =
      match alookup m r' with
      | some row => some row
      | none => if r = r' then some v else none := by
  unfold entryOrInsert
  cases hs : alookup m r with
  | some row =>
    simp only [hs, Option.isSome_some, if_true]
    cases hr : alookup m r' with
    | some row' => simp
    | none =>
      have hne : ¬ r = r' := by
        intro he
        subst he
        rw [hs] at hr
        exact Option.noConfusion hr
      simp [hne]
  | none =>
    simp only [hs, Option.isSome_none, Bool.false_eq_true, if_false]
    rw [alookup_append]
    cases hr : alookup m r' with
    | some row' => simp
    | none => simp [alookup]

theorem entryOrInsert_of_isSome (m : NodesByRound) (r : Round) (v : Row)
    (h : (alookup m r).isSome) : entryOrInsert m r v = m := by
  unfold entryOrInsert
  simp [h]

theorem alookup_updateRow (m : NodesByRound) (r : Round) (f : Row → Row)
    (r' : Round) :
    alookup (updateRow m r f) r' =
      if r = r' then (alookup m r').map f else alookup m r' := by
  induction m with
  | nil => simp [updateRow, alookup]
  | cons p rest ih =>
    obtain ⟨k, row⟩ := p
    by_cases h1 : k = r <;> by_cases h2 : k = r'
    · subst h1; subst h2
      simp [updateRow, alookup]
    · subst h1
      have hne : ¬ k = r' := h2
      simp [updateRow, alookup, hne, ih]
    · subst h2
      have hne : ¬ r = k := fun he => h1 he.symm
      simp [updateRow, alookup, h1, hne]
    · simp [updateRow, alookup, h1, h2, ih]

theorem alookup_setSlot (m : NodesByRound) (r : Round) (i : Nat)
    (v : Option NodeStatus) (r' : Round) :
    alookup (setSlot m r i v) r' =
      if r = r' then (alookup m r').map (fun row => row.set i v)
      else alookup m r' :=
  alookup_updateRow m r _ r'

theorem keys_updateRow (m : NodesByRound) (r : Round) (f : Row → Row) :
    (updateRow m r f).map Prod.fst = m.map Prod.fst := by
  induction m with
  | nil => simp [updateRow]
  | cons p rest ih =>
    obtain ⟨k, row⟩ := p
    by_cases h : k = r <;> simp [updateRow, h, ih]

theorem getD_replicate (n i : Nat) :
    (List.replicate n (none : Option NodeStatus)).getD i none = none := by
  induction n generalizing i with
  | zero => simp [List.getD]
  | succ k ih =>
    cases i with
    | zero => simp [List.replicate]
    | succ j =>
      simp only [List.replicate]
      exact ih j

/-- Membership in the key list is equivalent to a successful lookup. -/
theorem alookup_isSome_iff_mem {β : Type} (m : List (Nat × β)) (k : Nat) :
    (alookup m k).isSome ↔ k ∈ m.map Prod.fst := by
  induction m with
  | nil => simp [alookup]
  | cons p rest ih =>
    obtain ⟨k', v⟩ := p
    by_cases h : k' = k
    · subst h; simp [alookup]
    · simp only [alookup, if_neg h, List.map_cons, List.mem_cons]
      rw [ih]
      constructor
      · intro hm; exact Or.inr hm
      · rintro (he | hm)
        · exact absurd he.symm h
        · exact hm

theorem minKey_eq_none_iff (l : List Nat) : minKey l = none ↔ l = [] := by
  cases l <;> simp [minKey]

theorem minKey_spec (l : List Nat) (m : Nat) (h : minKey l = some m) :
    m ∈ l ∧ ∀ x ∈ l, m ≤ x := by
  induction l generalizing m with
  | nil => simp [minKey] at h
  | cons k rest ih =>
    simp only [minKey] at h
    cases hr : minKey rest with
    | none =>
      rw [hr] at h
      have hrest : rest = [] := (minKey_eq_none_iff rest).mp hr
      subst hrest
      simp at h
      subst h
      simp
    | some mr =>
      rw [hr] at h
      simp at h
      subst h
      rcases ih mr hr with ⟨hmem, hle⟩
      constructor
      · rcases Nat.le_total k mr with hk | hk
        · rw [Nat.min_eq_left hk]
          exact List.mem_cons_self _ _
        · rw [Nat.min_eq_right hk]
          exact List.mem_cons_of_mem _ hmem
      · intro x hx
        rcases List.mem_cons.mp hx with hx1 | hx1
        · subst hx1; exact Nat.min_le_left _ _
        · exact le_trans (Nat.min_le_right _ _) (hle x hx1)

theorem maxKey_eq_none_iff (l : List Nat) : maxKey l = none ↔ l = [] := by
  cases l <;> simp [maxKey]

theorem maxKey_spec (l : List Nat) (m : Nat) (h : maxKey l = some m) :
    m ∈ l ∧ ∀ x ∈ l, x ≤ m := by
  induction l generalizing m with
  | nil => simp [maxKey] at h
  | cons k rest ih =>
    simp only [maxKey] at h
    cases hr : maxKey rest with
    | none =>
      rw [hr] at h
      have hrest : rest = [] := (maxKey_eq_none_iff rest).mp hr
      subst hrest
      simp at h
      subst h
      simp
    | some mr =>
      rw [hr] at h
      simp at h
      subst h
      rcases ih mr hr with ⟨hmem, hle⟩
      constructor
      · rcases Nat.le_total k mr with hk | hk
        · rw [Nat.max_eq_right hk]
          exact List.mem_cons_of_mem _ hmem
        · rw [Nat.max_eq_left hk]
          exact List.mem_cons_self _ _
      · intro x hx
        rcases List.mem_cons.mp hx with hx1 | hx1
        · subst hx1; exact Nat.le_max_left _ _
        · exact le_trans (hle x hx1) (Nat.le_max_right _ _)

/-- `minKey` is determined by the membership predicate of the key list. -/
theorem minKey_congr (l₁ l₂ : List Nat) (h : ∀ x, x ∈ l₁ ↔ x ∈ l₂) :
    minKey l₁ = minKey l₂ := by
  cases h₁ : minKey l₁ with
  | none =>
    have he : l₁ = [] := (minKey_eq_none_iff l₁).mp h₁
    subst he
    cases h₂ : minKey l₂ with
    | none => rfl
    | some m₂ =>
      have hm := (minKey_spec l₂ m₂ h₂).1
      rw [← h] at hm
      simp at hm
  | some m₁ =>
    rcases minKey_spec l₁ m₁ h₁ with ⟨hmem₁, hle₁⟩
    cases h₂ : minKey l₂ with
    | none =>
      have he : l₂ = [] := (minKey_eq_none_iff l₂).mp h₂
      subst he
      rw [h] at hmem₁
      simp at hmem₁
    | some m₂ =>
      rcases minKey_spec l₂ m₂ h₂ with ⟨hmem₂, hle₂⟩
      have h12 : m₁ ≤ m₂ := hle₁ m₂ ((h m₂).mpr hmem₂)
      have h21 : m₂ ≤ m₁ := hle₂ m₁ ((h m₁).mp hmem₁)
      rw [Nat.le_antisymm h12 h21]

theorem maxKey_congr (l₁ l₂ : List Nat) (h : ∀ x, x ∈ l₁ ↔ x ∈ l₂) :
    maxKey l₁ = maxKey l₂ := by
  cases h₁ : maxKey l₁ with
  | none =>
    have he : l₁ = [] := (maxKey_eq_none_iff l₁).mp h₁
    subst he
    cases h₂ : maxKey l₂ with
    | none => rfl
    | some m₂ =>
      have hm := (maxKey_spec l₂ m₂ h₂).1
      rw [← h] at hm
      simp at hm
  | some m₁ =>
    rcases maxKey_spec l₁ m₁ h₁ with ⟨hmem₁, hle₁⟩
    cases h₂ : maxKey l₂ with
    | none =>
      have he : l₂ = [] := (maxKey_eq_none_iff l₂).mp h₂
      subst he
      rw [h] at hmem₁
      simp at hmem₁
    | some m₂ =>
      rcases maxKey_spec l₂ m₂ h₂ with ⟨hmem₂, hle₂⟩
      have h12 : m₁ ≤ m₂ := hle₂ m₁ ((h m₁).mp hmem₁)
      have h21 : m₂ ≤ m₁ := hle₁ m₂ ((h m₂).mpr hmem₂)
      rw [Nat.le_antisymm h21 h12]


/-! ### List slot lemmas -/

theorem getD_set_self (l : Row) (i : Nat) (v w : Option NodeStatus)
    (h : i < l.length) : (l.set i v).getD i w = v := by
  induction l generalizing i with
  | nil => simp at h
  | cons x rest ih =>
    cases i with
    | zero => simp [List.set]
    | succ j =>
      simp only [List.set, List.getD, List.get?]
      exact ih j (Nat.lt_of_succ_lt_succ h)

theorem getD_set_ne (l : Row) (i j : Nat) (v w : Option NodeStatus)
    (h : i ≠ j) : (l.set i v).getD j w = l.getD j w := by
  induction l generalizing i j with
  | nil => simp [List.set]
  | cons x rest ih =>
    cases i with
    | zero =>
      cases j with
      | zero => exact absurd rfl h
      | succ j' => simp [List.set, List.getD]
    | succ i' =>
      cases j with
      | zero => simp [List.set, List.getD]
      | succ j' =>
        simp only [List.set, List.getD, List.get?]
        exact ih i' j' (fun he => h (congrArg Nat.succ he))

theorem getD_isSome_lt (l : Row) (i : Nat) (s : NodeStatus)
    (h : l.getD i none = some s) : i < l.length := by
  induction l generalizing i with
  | nil => simp [List.getD] at h
  | cons x rest ih =>
    cases i with
    | zero => simp
    | succ j =>
      simp only [List.getD, List.get?] at h
      exact Nat.succ_lt_succ (ih j h)

/-! ### Round bound lemmas -/

theorem lowest_le_highest (d : Dag) : d.lowest_round ≤ d.highest_round := by
  unfold Dag.lowest_round Dag.highest_round
  cases hmin : minKey (d.nodes_by_round.map Prod.fst) with
  | none =>
    have he := (minKey_eq_none_iff _).mp hmin
    rw [he]
    simp [maxKey]
  | some m₁ =>
    rcases minKey_spec _ _ hmin with ⟨hmem₁, hle₁⟩
    cases hmax : maxKey (d.nodes_by_round.map Prod.fst) with
    | none =>
      have he := (maxKey_eq_none_iff _).mp hmax
      rw [he] at hmem₁
      simp at hmem₁
    | some m₂ =>
      rcases maxKey_spec _ _ hmax with ⟨hmem₂, hle₂⟩
      exact hle₁ m₂ hmem₂

/-- A populated round lies between the store's round bounds. -/
theorem round_mem_bounds (d : Dag) (r : Round)
    (h : (alookup d.nodes_by_round r).isSome) :
    d.lowest_round ≤ r ∧ r ≤ d.highest_round := by
  have hmem : r ∈ d.nodes_by_round.map Prod.fst :=
    (alookup_isSome_iff_mem _ _).mp h
  constructor
  · unfold Dag.lowest_round
    cases hmin : minKey (d.nodes_by_round.map Prod.fst) with
    | none =>
      have he := (minKey_eq_none_iff _).mp hmin
      rw [he] at hmem
      simp at hmem
    | some m₁ => exact (minKey_spec _ _ hmin).2 r hmem
  · unfold Dag.highest_round
    cases hmax : maxKey (d.nodes_by_round.map Prod.fst) with
    | none =>
      have he := (maxKey_eq_none_iff _).mp hmax
      rw [he] at hmem
      simp at hmem
    | some m₂ => exact (maxKey_spec _ _ hmax).2 r hmem

/-! ### Path lemmas for `add_node` -/

theorem add_node_author_none (d : Dag) (n : CertifiedNode)
    (h : alookup d.author_to_index n.metadata.author = none) :
    d.add_node n = (some .unknownAuthor, d) := by
  unfold Dag.add_node
  rw [h]

theorem add_node_too_low (d : Dag) (n : CertifiedNode) (i : Nat)
    (h : alookup d.author_to_index n.metadata.author = some i)
    (hlow : n.metadata.round < d.lowest_round) :
    d.add_node n = (some .roundTooLow, d) := by
  unfold Dag.add_node
  rw [h]
  simp [hlow]

theorem add_node_too_high (d : Dag) (n : CertifiedNode) (i : Nat)
    (h : alookup d.author_to_index n.metadata.author = some i)
    (hnl : ¬ n.metadata.round < d.lowest_round)
    (hhigh : d.highest_round + 1 < n.metadata.round) :
    d.add_node n = (some .roundTooHigh, d) := by
  unfold Dag.add_node
  rw [h]
  simp [hnl, hhigh]

theorem add_node_missing_parent (d : Dag) (n : CertifiedNode) (i : Nat)
    (h : alookup d.author_to_index n.metadata.author = some i)
    (hnl : ¬ n.metadata.round < d.lowest_round)
    (hnh : ¬ d.highest_round + 1 < n.metadata.round)
    (hpar : n.parents.all (fun p => d.node_exists p.metadata) = false) :
    d.add_node n = (some .missingParent, d) := by
  unfold Dag.add_node
  rw [h]
  simp [hnl, hnh, hpar]

/-- The duplicate test of `add_node` (read through the freshly inserted row)
equals occupancy of the target slot in the pre-state. -/
theorem dup_test_eq (d : Dag) (r : Round) (i num : Nat) :
    ((alookup (entryOrInsert d.nodes_by_round r (List.replicate num none)) r
        ).getD []).getD i none = d.slotAt r i := by
  rw [alookup_entryOrInsert]
  unfold Dag.slotAt
  cases hr : alookup d.nodes_by_round r with
  | some row => simp
  | none => simp [getD_replicate]


/-! ### Claim C10: `bitmask` never returns a value -/

/-- C10: for every `Dag` in every state, `bitmask()` never returns a value —
its body is `todo!()`, an unconditional panic, modelled as the always-absent
result — so no caller can observe any bitmask result from this core. -/
theorem claim_C10 (d : Dag) : d.bitmask = none := rfl

/-! ### Claim C1: strong links iff quorum -/

theorem check_voting_power_nil (vv : ValidatorVerifier) :
    vv.check_voting_power [] = false := by
  show (match vv.sum_voting_power [] with
        | none => false
        | some s => decide (vv.quorum_voting_power ≤ s)) = false
  show decide (vv.quorum_voting_power ≤ 0) = false
  rw [decide_eq_false_iff_not]
  unfold ValidatorVerifier.quorum_voting_power
  omega

/-- C1: `get_strong_links_for_round(r)` returns a populated result — the
certificates of every populated node in round r — if and only if the authors
of the populated slots at round r meet the oracle's quorum predicate, and
returns `none` otherwise. -/
theorem claim_C1 (d : Dag) (r : Round) (vv : ValidatorVerifier) :
    d.get_strong_links_for_round r vv =
      if vv.check_voting_power
          ((d.roundStatuses r).map (fun ns => ns.as_node.metadata.author))
      then some ((d.roundStatuses r).map (fun ns => ns.as_node.certificate))
      else none := by
  unfold Dag.get_strong_links_for_round Dag.roundStatuses
  cases h : alookup d.nodes_by_round r with
  | none => simp [check_voting_power_nil]
  | some row => simp

/-! ### Claim C6: existence and retrieval -/

theorem mkStatus_as_node (t : StatusTag) (cn : CertifiedNode) :
    (mkStatus t cn).as_node = cn := by
  cases t <;> rfl

/-- C6: `exists(metadata)` holds iff the slot at
`(metadata.round, index(metadata.author))` is populated, and `get_node`
returns the stored node — the same underlying node regardless of its
`Unordered`/`Ordered`/`Committed` tag — exactly when `exists` is true, and
returns absent otherwise. -/
theorem claim_C6 (d : Dag) (m : NodeMetadata) :
    (d.node_exists m = true ↔
      ∃ i, alookup d.author_to_index m.author = some i ∧
        (d.slotAt m.round i).isSome = true) ∧
    ((d.get_node m).isSome = d.node_exists m) ∧
    (∀ cn t, d.get_node_ref m = some (mkStatus t cn) → d.get_node m = some cn) ∧
    (d.get_node_ref m = none → d.get_node m = none) := by
  refine ⟨?_, ?_, ?_, ?_⟩
  · unfold Dag.node_exists Dag.get_node_ref Dag.slotAt
    cases h : alookup d.author_to_index m.author with
    | none => simp
    | some i =>
      cases h2 : alookup d.nodes_by_round m.round with
      | none => simp
      | some row => simp
  · unfold Dag.get_node Dag.node_exists
    cases d.get_node_ref m <;> simp
  · intro cn t h
    unfold Dag.get_node
    rw [h]
    simp [mkStatus_as_node]
  · intro h
    unfold Dag.get_node
    rw [h]
    rfl

/-- Witness for C6 at a concrete store: the node admitted into `exDag1` is
found with its wrapped value, and existence matches. -/
theorem claim_C6_witness :
    exDag1.get_node ⟨0, 0, 0⟩ = some (mkNode 0 0 0 []) ∧
    exDag1.node_exists ⟨0, 0, 0⟩ = true := by
  constructor
  · exact (claim_C6 exDag1 ⟨0, 0, 0⟩).2.2.1 (mkNode 0 0 0 []) .unordered rfl
  · exact ((claim_C6 exDag1 ⟨0, 0, 0⟩).1).mpr ⟨0, rfl, by rfl⟩

/-! ### Claim C3: round bounds -/

/-- C3: for a node whose author resolves, admission succeeds only if
`lowest_round ≤ round ≤ highest_round + 1`; a round below `lowest_round`
fails with `RoundTooLow` and a round above `highest_round + 1` fails with
`RoundTooHigh`, in both cases leaving the store unchanged. -/
theorem claim_C3 (d : Dag) (n : CertifiedNode) (i : Nat)
    (h : alookup d.author_to_index n.metadata.author = some i) :
    ((d.add_node n).1 = none →
      d.lowest_round ≤ n.metadata.round ∧
        n.metadata.round ≤ d.highest_round + 1) ∧
    (n.metadata.round < d.lowest_round →
      d.add_node n = (some .roundTooLow, d)) ∧
    (d.highest_round + 1 < n.metadata.round →
      d.add_node n = (some .roundTooHigh, d)) := by
  refine ⟨?_, ?_, ?_⟩
  · intro hs
    by_cases h1 : n.metadata.round < d.lowest_round
    · rw [add_node_too_low d n i h h1] at hs
      simp at hs
    · by_cases h2 : d.highest_round + 1 < n.metadata.round
      · rw [add_node_too_high d n i h h1 h2] at hs
        simp at hs
      · exact ⟨Nat.le_of_not_lt h1, Nat.le_of_not_lt h2⟩
  · intro h1
    exact add_node_too_low d n i h h1
  · intro h2
    by_cases h1 : n.metadata.round < d.lowest_round
    · exfalso
      have hlh := lowest_le_highest d
      exact Nat.lt_irrefl _
        (Nat.lt_trans (Nat.lt_of_lt_of_le h1 hlh)
          (Nat.lt_trans (Nat.lt_succ_self _) h2))
    · exact add_node_too_high d n i h h1 h2

/-- Witness for C3: on the empty store a round-5 node from a known author is
rejected as `RoundTooHigh` with the store unchanged. -/
theorem claim_C3_witness :
    exDag0.add_node (mkNode 0 5 0 []) = (some .roundTooHigh, exDag0) :=
  (claim_C3 exDag0 (mkNode 0 5 0 []) 0 rfl).2.2 (by decide)


theorem slot_isSome_round_isSome (d : Dag) (r : Round) (i : Nat)
    (h : (d.slotAt r i).isSome = true) :
    (alookup d.nodes_by_round r).isSome = true := by
  unfold Dag.slotAt at h
  cases hr : alookup d.nodes_by_round r with
  | none =>
    rw [hr] at h
    simp at h
  | some row => simp

theorem add_node_duplicate (d : Dag) (n : CertifiedNode) (i : Nat)
    (h : alookup d.author_to_index n.metadata.author = some i)
    (hnl : ¬ n.metadata.round < d.lowest_round)
    (hnh : ¬ d.highest_round + 1 < n.metadata.round)
    (hpar : n.parents.all (fun p => d.node_exists p.metadata) = true)
    (hdup : (d.slotAt n.metadata.round i).isSome = true) :
    d.add_node n = (some .duplicateNode, d) := by
  have hround := slot_isSome_round_isSome d n.metadata.round i hdup
  have hE := entryOrInsert_of_isSome d.nodes_by_round n.metadata.round
    (List.replicate d.author_to_index.length none) hround
  unfold Dag.add_node
  rw [h]
  simp [hnl, hnh, hpar, hE]
  intro hnone
  exfalso
  cases hr : alookup d.nodes_by_round n.metadata.round with
  | none =>
    rw [hr] at hround
    simp at hround
  | some row =>
    rw [hr] at hnone
    simp only [Option.getD_some] at hnone
    unfold Dag.slotAt at hdup
    rw [hr] at hdup
    simp only [List.getD_eq_getElem?_getD] at hdup
    rw [hnone] at hdup
    simp at hdup

theorem add_node_persist_fail (d : Dag) (n : CertifiedNode) (i : Nat)
    (h : alookup d.author_to_index n.metadata.author = some i)
    (hnl : ¬ n.metadata.round < d.lowest_round)
    (hnh : ¬ d.highest_round + 1 < n.metadata.round)
    (hpar : n.parents.all (fun p => d.node_exists p.metadata) = true)
    (hndup : (d.slotAt n.metadata.round i).isSome = false)
    (hsave : d.storage.save_certified_node n = none) :
    d.add_node n =
      (some .persistenceError,
       { d with
         nodes_by_round :=
           entryOrInsert d.nodes_by_round n.metadata.round
             (List.replicate d.author_to_index.length none) }) := by
  unfold Dag.add_node
  rw [h]
  simp [hnl, hnh, hpar, hsave]
  rw [← List.getD_eq_getElem?_getD]
  rw [dup_test_eq]
  cases hopt : d.slotAt n.metadata.round i with
  | none => rfl
  | some s =>
    rw [hopt] at hndup
    simp at hndup

theorem add_node_success_eq (d : Dag) (n : CertifiedNode) (i : Nat)
    (h : alookup d.author_to_index n.metadata.author = some i)
    (hnl : ¬ n.metadata.round < d.lowest_round)
    (hnh : ¬ d.highest_round + 1 < n.metadata.round)
    (hpar : n.parents.all (fun p => d.node_exists p.metadata) = true)
    (hndup : (d.slotAt n.metadata.round i).isSome = false)
    (st1 : DAGStorage)
    (hsave : d.storage.save_certified_node n = some st1) :
    d.add_node n =
      (none,
       { nodes_by_round :=
           insertLoaded d.author_to_index.length d.nodes_by_round i
             n.metadata.round n,
         author_to_index := d.author_to_index,
         storage := st1 }) := by
  unfold Dag.add_node
  rw [h]
  simp [hnl, hnh, hpar, hsave, insertLoaded]
  rw [← List.getD_eq_getElem?_getD]
  rw [dup_test_eq]
  cases hopt : d.slotAt n.metadata.round i with
  | none => rfl
  | some s =>
    rw [hopt] at hndup
    simp at hndup


/-! ### Claim C2: failure atomicity (corrected) -/

/-- Adding an all-empty row leaves every slot lookup unchanged. -/
theorem get_node_ref_entry_empty (d : Dag) (r : Round) (num : Nat)
    (m : NodeMetadata) :
    ({ d with
       nodes_by_round :=
         entryOrInsert d.nodes_by_round r (List.replicate num none) } : Dag
      ).get_node_ref m = d.get_node_ref m := by
  unfold Dag.get_node_ref
  cases ha : alookup d.author_to_index m.author with
  | none => rfl
  | some i =>
    show (match alookup (entryOrInsert d.nodes_by_round r
        (List.replicate num none)) m.round with
      | none => none
      | some row => row.getD i none) = _
    rw [alookup_entryOrInsert]
    cases hr : alookup d.nodes_by_round m.round with
    | some row => simp
    | none =>
      by_cases he : r = m.round
      · simp [he, getD_replicate]
      · simp [he]

/-- C2 counterexample: the claim fails as stated. On the empty store over
`exVV` with deterministically failing persistence, admitting a round-1 node
reports a failure and yet `highest_round` changes from 0 to 1: the
`entry(round).or_insert_with` call of `add_node` runs before the persistence
write and leaves an empty round row behind. -/
theorem claim_C2_counterexample :
    ((initialDag exVV exStorageFail).add_node (mkNode 0 1 0 [])).1 =
        some .persistenceError ∧
    (initialDag exVV exStorageFail).highest_round = 0 ∧
    ((initialDag exVV exStorageFail).add_node (mkNode 0 1 0 [])).2.highest_round
        = 1 :=
  ⟨rfl, rfl, rfl⟩

/-- C2 (amended): when `add_node` returns any of the five
structural-validation failures the store is left completely unchanged; when
it returns a persistence-write failure, every slot — hence `exists` and
`get_node` for every metadata — is unchanged, but an empty row may have been
inserted for the node's round (which can move `lowest_round`/
`highest_round`, as the counterexample shows). -/
theorem claim_C2_amended (d : Dag) (n : CertifiedNode) (e : DagError)
    (h : (d.add_node n).1 = some e) :
    (e ≠ .persistenceError → (d.add_node n).2 = d) ∧
    (∀ m, (d.add_node n).2.node_exists m = d.node_exists m) ∧
    (∀ m, (d.add_node n).2.get_node m = d.get_node m) := by
  cases ha : alookup d.author_to_index n.metadata.author with
  | none =>
    rw [add_node_author_none d n ha]
    exact ⟨fun _ => rfl, fun m => rfl, fun m => rfl⟩
  | some i =>
    by_cases h1 : n.metadata.round < d.lowest_round
    · rw [add_node_too_low d n i ha h1]
      exact ⟨fun _ => rfl, fun m => rfl, fun m => rfl⟩
    · by_cases h2 : d.highest_round + 1 < n.metadata.round
      · rw [add_node_too_high d n i ha h1 h2]
        exact ⟨fun _ => rfl, fun m => rfl, fun m => rfl⟩
      · cases hpar : n.parents.all (fun p => d.node_exists p.metadata) with
        | false =>
          rw [add_node_missing_parent d n i ha h1 h2 hpar]
          exact ⟨fun _ => rfl, fun m => rfl, fun m => rfl⟩
        | true =>
          cases hdup : (d.slotAt n.metadata.round i).isSome with
          | true =>
            rw [add_node_duplicate d n i ha h1 h2 hpar hdup]
            exact ⟨fun _ => rfl, fun m => rfl, fun m => rfl⟩
          | false =>
            cases hsave : d.storage.save_certified_node n with
            | some st1 =>
              rw [add_node_success_eq d n i ha h1 h2 hpar hdup st1 hsave] at h
              simp at h
            | none =>
              rw [add_node_persist_fail d n i ha h1 h2 hpar hdup hsave] at h ⊢
              simp only at h
              refine ⟨?_, ?_, ?_⟩
              · intro hne
                exfalso
                exact hne (by injection h with h2; exact h2.symm)
              · intro m
                unfold Dag.node_exists
                rw [get_node_ref_entry_empty]
              · intro m
                unfold Dag.get_node
                rw [get_node_ref_entry_empty]

/-- Witness for the amended C2 at a structural failure: an unknown-author
admission leaves the store untouched. -/
theorem claim_C2_amended_witness :
    ((exDag0.add_node (mkNode 0 0 99 [])).2 = exDag0) ∧
    ((exDag0.add_node (mkNode 0 0 99 [])).2.node_exists ⟨0, 0, 0⟩ =
      exDag0.node_exists ⟨0, 0, 0⟩) :=
  ⟨(claim_C2_amended exDag0 (mkNode 0 0 99 []) .unknownAuthor rfl).1
      (by decide),
   (claim_C2_amended exDag0 (mkNode 0 0 99 []) .unknownAuthor rfl).2.1
      ⟨0, 0, 0⟩⟩


/-! ### Success-path inversion and slot preservation -/

theorem slotAt_eq_some (d : Dag) (r : Round) (j : Nat) (s : NodeStatus) :
    d.slotAt r j = some s ↔
      ∃ row, alookup d.nodes_by_round r = some row ∧
        row.getD j none = some s := by
  unfold Dag.slotAt
  cases hr : alookup d.nodes_by_round r with
  | none => simp
  | some row => simp

theorem add_node_success_inv (d : Dag) (n : CertifiedNode)
    (hs : (d.add_node n).1 = none) :
    ∃ i st1, alookup d.author_to_index n.metadata.author = some i ∧
      ¬ n.metadata.round < d.lowest_round ∧
      ¬ d.highest_round + 1 < n.metadata.round ∧
      n.parents.all (fun p => d.node_exists p.metadata) = true ∧
      (d.slotAt n.metadata.round i).isSome = false ∧
      d.storage.save_certified_node n = some st1 ∧
      (d.add_node n).2 =
        { nodes_by_round :=
            insertLoaded d.author_to_index.length d.nodes_by_round i
              n.metadata.round n,
          author_to_index := d.author_to_index,
          storage := st1 } := by
  cases ha : alookup d.author_to_index n.metadata.author with
  | none =>
    rw [add_node_author_none d n ha] at hs
    simp at hs
  | some i =>
    by_cases h1 : n.metadata.round < d.lowest_round
    · rw [add_node_too_low d n i ha h1] at hs
      simp at hs
    · by_cases h2 : d.highest_round + 1 < n.metadata.round
      · rw [add_node_too_high d n i ha h1 h2] at hs
        simp at hs
      · cases hpar : n.parents.all (fun p => d.node_exists p.metadata) with
        | false =>
          rw [add_node_missing_parent d n i ha h1 h2 hpar] at hs
          simp at hs
        | true =>
          cases hdup : (d.slotAt n.metadata.round i).isSome with
          | true =>
            rw [add_node_duplicate d n i ha h1 h2 hpar hdup] at hs
            simp at hs
          | false =>
            cases hsave : d.storage.save_certified_node n with
            | none =>
              rw [add_node_persist_fail d n i ha h1 h2 hpar hdup hsave] at hs
              simp at hs
            | some st1 =>
              refine ⟨i, st1, rfl, h1, h2, rfl, hdup, rfl, ?_⟩
              rw [add_node_success_eq d n i ha h1 h2 hpar hdup st1 hsave]

theorem alookup_insertLoaded (m : NodesByRound) (num i : Nat) (round : Round)
    (n : CertifiedNode) (r : Round) :
    alookup (insertLoaded num m i round n) r =
      if round = r then
        some (((alookup m r).getD (List.replicate num none)).set i
          (some (.unordered n)))
      else alookup m r := by
  unfold insertLoaded setSlot
  rw [alookup_updateRow]
  by_cases he : round = r
  · subst he
    rw [if_pos rfl, alookup_entryOrInsert]
    cases hr : alookup m round with
    | some row => simp
    | none => simp
  · simp only [if_neg he]
    rw [alookup_entryOrInsert]
    cases hr : alookup m r with
    | some row => rfl
    | none => simp [he]

/-- A successful admission never disturbs an occupied slot. -/
theorem add_node_success_slot_preserved (d : Dag) (n : CertifiedNode)
    (hs : (d.add_node n).1 = none) :
    ∀ r j s, d.slotAt r j = some s → (d.add_node n).2.slotAt r j = some s := by
  intro r j s hslot
  obtain ⟨i, st1, ha, h1, h2, hpar, hdup, hsave, heq⟩ :=
    add_node_success_inv d n hs
  obtain ⟨row, hr, hrow⟩ := (slotAt_eq_some d r j s).mp hslot
  rw [heq]
  apply (slotAt_eq_some _ r j s).mpr
  show ∃ row', alookup (insertLoaded d.author_to_index.length
      d.nodes_by_round i n.metadata.round n) r = some row' ∧
      row'.getD j none = some s
  rw [alookup_insertLoaded]
  by_cases he : n.metadata.round = r
  · rw [if_pos he]
    refine ⟨_, rfl, ?_⟩
    rw [hr]
    simp only [Option.getD_some]
    by_cases hj : i = j
    · subst hj
      exfalso
      have hsl : d.slotAt n.metadata.round i = some s := by
        rw [he]
        exact (slotAt_eq_some d r i s).mpr ⟨row, hr, hrow⟩
      rw [hsl] at hdup
      simp at hdup
    · rw [getD_set_ne row i j _ _ hj]
      exact hrow
  · rw [if_neg he, hr]
    exact ⟨row, rfl, hrow⟩

/-! ### Claim C4: parent integrity -/

/-- C4: with a known author and an in-bounds round, admission fails with
`MissingParent` — leaving the store unchanged — whenever some declared parent
does not already exist; and when every declared parent exists, the target
slot is empty and the persistence write succeeds, admission succeeds. -/
theorem claim_C4 (d : Dag) (n : CertifiedNode) (i : Nat)
    (h : alookup d.author_to_index n.metadata.author = some i)
    (hnl : ¬ n.metadata.round < d.lowest_round)
    (hnh : ¬ d.highest_round + 1 < n.metadata.round) :
    ((∃ p ∈ n.parents, d.node_exists p.metadata = false) →
      d.add_node n = (some .missingParent, d)) ∧
    ((∀ p ∈ n.parents, d.node_exists p.metadata = true) →
      (d.slotAt n.metadata.round i).isSome = false →
      ∀ st1, d.storage.save_certified_node n = some st1 →
        (d.add_node n).1 = none) := by
  constructor
  · rintro ⟨p, hp, hpe⟩
    have hall : n.parents.all (fun q => d.node_exists q.metadata) = false := by
      cases hall : n.parents.all (fun q => d.node_exists q.metadata) with
      | false => rfl
      | true =>
        exfalso
        have := List.all_eq_true.mp hall p hp
        rw [hpe] at this
        exact Bool.noConfusion this
    exact add_node_missing_parent d n i h hnl hnh hall
  · intro hpar hndup st1 hsave
    have hall : n.parents.all (fun q => d.node_exists q.metadata) = true :=
      List.all_eq_true.mpr hpar
    rw [add_node_success_eq d n i h hnl hnh hall hndup st1 hsave]

/-- Witness for C4: a missing-parent admission is rejected, and a
parent-free admission on the empty store succeeds. -/
theorem claim_C4_witness :
    exDag0.add_node (mkNode 0 0 3 [⟨⟨0, 0, 2⟩, 0⟩]) =
        (some .missingParent, exDag0) ∧
    (exDag0.add_node (mkNode 0 0 1 [])).1 = none := by
  constructor
  · exact (claim_C4 exDag0 (mkNode 0 0 3 [⟨⟨0, 0, 2⟩, 0⟩]) 3 rfl
      (by decide) (by decide)).1 ⟨⟨⟨0, 0, 2⟩, 0⟩, List.mem_cons_self _ _, rfl⟩
  · exact (claim_C4 exDag0 (mkNode 0 0 1 []) 1 rfl (by decide) (by decide)).2
      (fun p hp => absurd hp (List.not_mem_nil p))
      rfl
      ⟨[(0, mkNode 0 0 1 [])], fun _ => false, false, false⟩
      rfl

/-! ### Claim C5: at most one node per (round, author) -/

/-- C5: an admission into an occupied slot fails with `DuplicateNode` and
leaves the store unchanged, and a successful admission never replaces an
occupied slot — so each `(round, author)` pair holds at most one node across
any sequence of successful admissions. -/
theorem claim_C5 (d : Dag) (n : CertifiedNode) (i : Nat)
    (h : alookup d.author_to_index n.metadata.author = some i) :
    ((d.slotAt n.metadata.round i).isSome = true →
      n.parents.all (fun p => d.node_exists p.metadata) = true →
      d.add_node n = (some .duplicateNode, d)) ∧
    ((d.add_node n).1 = none →
      ∀ r j s, d.slotAt r j = some s → (d.add_node n).2.slotAt r j = some s) := by
  constructor
  · intro hdup hpar
    have hround := slot_isSome_round_isSome d n.metadata.round i hdup
    have hb := round_mem_bounds d n.metadata.round hround
    have h1 : ¬ n.metadata.round < d.lowest_round := Nat.not_lt.mpr hb.1
    have h2 : ¬ d.highest_round + 1 < n.metadata.round :=
      Nat.not_lt.mpr (Nat.le_succ_of_le hb.2)
    exact add_node_duplicate d n i h h1 h2 hpar hdup
  · exact fun hs => add_node_success_slot_preserved d n hs

/-- Witness for C5: re-admitting author 0's round-0 node into `exDag1` is
rejected as a duplicate, and a successful admission of author 1's node
preserves author 0's occupied slot. -/
theorem claim_C5_witness :
    exDag1.add_node (mkNode 0 0 0 []) = (some .duplicateNode, exDag1) ∧
    (exDag1.add_node (mkNode 0 0 1 [])).2.slotAt 0 0 =
      some (.unordered (mkNode 0 0 0 [])) := by
  constructor
  · exact (claim_C5 exDag1 (mkNode 0 0 0 []) 0 rfl).1 rfl rfl
  · exact (claim_C5 exDag1 (mkNode 0 0 1 []) 1 rfl).2 rfl 0 0
      (.unordered (mkNode 0 0 0 [])) rfl


/-! ### Claim C9: forward-only status lifecycle -/

/-- C9: the status-transition operation moves a stored node's tag only
forward, preserves the wrapped node unchanged, and rejects a backward or
no-op transition (`InvalidTransition`) or a transition on a non-existent
node (`NotFound`). -/
theorem claim_C9 (d : Dag) (m : NodeMetadata) (t : StatusTag) :
    (d.get_node_ref m = none → d.update_node_status m t = .error .notFound) ∧
    (∀ s, d.get_node_ref m = some s → ¬ s.tag.rank < t.rank →
      d.update_node_status m t = .error .invalidTransition) ∧
    (∀ s, d.get_node_ref m = some s → s.tag.rank < t.rank →
      ∃ d', d.update_node_status m t = .ok d' ∧
        d'.get_node_ref m = some (mkStatus t s.as_node) ∧
        d'.get_node m = some s.as_node) := by
  cases ha : alookup d.author_to_index m.author with
  | none =>
    have href : d.get_node_ref m = none := by
      unfold Dag.get_node_ref
      rw [ha]
    have hupd : d.update_node_status m t = .error .notFound := by
      unfold Dag.update_node_status
      rw [ha]
    refine ⟨fun _ => hupd, fun s hs _ => ?_, fun s hs _ => ?_⟩
    · rw [href] at hs
      exact Option.noConfusion hs
    · rw [href] at hs
      exact Option.noConfusion hs
  | some i =>
    cases hr : alookup d.nodes_by_round m.round with
    | none =>
      have href : d.get_node_ref m = none := by
        unfold Dag.get_node_ref
        rw [ha, hr]
      have hupd : d.update_node_status m t = .error .notFound := by
        unfold Dag.update_node_status
        rw [ha, hr]
      refine ⟨fun _ => hupd, fun s hs _ => ?_, fun s hs _ => ?_⟩
      · rw [href] at hs
        exact Option.noConfusion hs
      · rw [href] at hs
        exact Option.noConfusion hs
    | some row =>
      cases hslot : row.getD i none with
      | none =>
        have href : d.get_node_ref m = none := by
          unfold Dag.get_node_ref
          rw [ha, hr]
          exact hslot
        have hupd : d.update_node_status m t = .error .notFound := by
          unfold Dag.update_node_status
          rw [ha, hr]
          dsimp only
          rw [hslot]
        refine ⟨fun _ => hupd, fun s hs _ => ?_, fun s hs _ => ?_⟩
        · rw [href] at hs
          exact Option.noConfusion hs
        · rw [href] at hs
          exact Option.noConfusion hs
      | some status =>
        have href : d.get_node_ref m = some status := by
          unfold Dag.get_node_ref
          rw [ha, hr]
          exact hslot
        have hlen : i < row.length := getD_isSome_lt row i status hslot
        refine ⟨?_, ?_, ?_⟩
        · intro hnone
          rw [href] at hnone
          exact Option.noConfusion hnone
        · intro s hs hlt
          rw [href] at hs
          injection hs with hs
          obtain rfl : s = status := hs.symm
          unfold Dag.update_node_status
          rw [ha, hr]
          dsimp only
          rw [hslot]
          dsimp only
          rw [if_neg hlt]
        · intro s hs hlt
          rw [href] at hs
          injection hs with hs
          obtain rfl : s = status := hs.symm
          have hupd : d.update_node_status m t =
              .ok { d with
                    nodes_by_round :=
                      setSlot d.nodes_by_round m.round i
                        (some (mkStatus t s.as_node)) } := by
            unfold Dag.update_node_status
            rw [ha, hr]
            dsimp only
            rw [hslot]
            dsimp only
            rw [if_pos hlt]
          have hrefnew : ({ d with
              nodes_by_round :=
                setSlot d.nodes_by_round m.round i
                  (some (mkStatus t s.as_node)) } : Dag).get_node_ref m =
              some (mkStatus t s.as_node) := by
            unfold Dag.get_node_ref
            show (match alookup d.author_to_index m.author with
              | none => none
              | some index =>
                match alookup (setSlot d.nodes_by_round m.round i
                    (some (mkStatus t s.as_node))) m.round with
                | none => none
                | some row => row.getD index none) = _
            rw [ha, alookup_setSlot, if_pos rfl, hr]
            simp only [Option.map_some']
            exact getD_set_self row i _ none hlen
          refine ⟨_, hupd, hrefnew, ?_⟩
          unfold Dag.get_node
          rw [hrefnew]
          simp [mkStatus_as_node]

/-- Witness for C9 at `exDag1`: a forward transition succeeds, a no-op
transition is rejected, and a transition on an absent node is rejected. -/
theorem claim_C9_witness :
    (exDag1.update_node_status ⟨0, 0, 0⟩ .ordered).toOption.isSome = true ∧
    exDag1.update_node_status ⟨0, 0, 0⟩ .unordered =
      .error .invalidTransition ∧
    exDag1.update_node_status ⟨0, 9, 0⟩ .ordered = .error .notFound := by
  refine ⟨?_, ?_, ?_⟩
  · obtain ⟨d', hd', _, _⟩ :=
      (claim_C9 exDag1 ⟨0, 0, 0⟩ .ordered).2.2
        (.unordered (mkNode 0 0 0 [])) rfl (by decide)
    rw [hd']
    rfl
  · exact (claim_C9 exDag1 ⟨0, 0, 0⟩ .unordered).2.1
      (.unordered (mkNode 0 0 0 [])) rfl (by decide)
  · exact (claim_C9 exDag1 ⟨0, 9, 0⟩ .ordered).1 rfl


/-! ### Claim C8: construction aborts on unknown authors -/

theorem newLoop_eq_none_iff (ati : List (Author × Nat)) (ep : Epoch) :
    ∀ (l : List (Digest × CertifiedNode)) (m : NodesByRound)
      (exp : List Digest),
      newLoop ati ep l m exp = none ↔
        ∃ p ∈ l, p.2.metadata.epoch = ep ∧
          alookup ati p.2.metadata.author = none := by
  intro l
  induction l with
  | nil =>
    intro m exp
    simp [newLoop]
  | cons p rest ih =>
    intro m exp
    obtain ⟨dig, cn⟩ := p
    by_cases he : cn.metadata.epoch = ep
    · unfold newLoop
      rw [if_pos he]
      cases hl : alookup ati cn.metadata.author with
      | none =>
        simp only [true_iff]
        exact ⟨(dig, cn), List.mem_cons_self _ _, he, hl⟩
      | some i =>
        rw [ih]
        constructor
        · rintro ⟨q, hq, hqe, hql⟩
          exact ⟨q, List.mem_cons_of_mem _ hq, hqe, hql⟩
        · rintro ⟨q, hq, hqe, hql⟩
          rcases List.mem_cons.mp hq with hq1 | hq1
          · exfalso
            subst hq1
            rw [hl] at hql
            exact Option.noConfusion hql
          · exact ⟨q, hq1, hqe, hql⟩
    · unfold newLoop
      rw [if_neg he]
      rw [ih]
      constructor
      · rintro ⟨q, hq, hqe, hql⟩
        exact ⟨q, List.mem_cons_of_mem _ hq, hqe, hql⟩
      · rintro ⟨q, hq, hqe, hql⟩
        rcases List.mem_cons.mp hq with hq1 | hq1
        · exfalso
          subst hq1
          exact he hqe
        · exact ⟨q, hq1, hqe, hql⟩

/-- C8: `Dag::new` aborts (the `expect` panic, modelled as `none`) iff some
loaded node of the current epoch has an author absent from the oracle's
index mapping; when every current-epoch author is mapped, construction
returns normally. -/
theorem claim_C8 (epoch : Epoch) (vv : ValidatorVerifier)
    (storage : DAGStorage) :
    Dag.new epoch vv storage = none ↔
      ∃ p ∈ storage.get_certified_nodes,
        p.2.metadata.epoch = epoch ∧
        alookup vv.address_to_validator_index p.2.metadata.author = none := by
  unfold Dag.new
  show (match newLoop vv.address_to_validator_index epoch
      storage.get_certified_nodes [] [] with
    | none => none
    | some (nodes_by_round, expired) =>
      some
        ({ nodes_by_round := nodes_by_round,
           author_to_index := vv.address_to_validator_index,
           storage := storage.delete_certified_nodes expired } : Dag)) =
      none ↔ _
  cases hnl : newLoop vv.address_to_validator_index epoch
      storage.get_certified_nodes [] [] with
  | none =>
    constructor
    · intro _
      exact (newLoop_eq_none_iff vv.address_to_validator_index epoch
        storage.get_certified_nodes [] []).mp hnl
    · intro _
      rfl
  | some pr =>
    obtain ⟨nbr, expired⟩ := pr
    constructor
    · intro hcon
      dsimp only at hcon
      exact Option.noConfusion hcon
    · intro hex
      exfalso
      have hthis := (newLoop_eq_none_iff vv.address_to_validator_index epoch
        storage.get_certified_nodes [] []).mpr hex
      rw [hnl] at hthis
      exact Option.noConfusion hthis


/-! ### Claim C7: rehydration refines round-ordered replay -/

theorem alookup_enumFrom_lt (l : List (Author × Nat)) :
    ∀ (k : Nat) (a : Author) (i : Nat),
      alookup ((List.enumFrom k l).map (fun p => (p.2.1, p.1))) a = some i →
      i < k + l.length := by
  induction l with
  | nil =>
    intro k a i h
    simp [alookup] at h
  | cons x rest ih =>
    intro k a i h
    simp only [List.enumFrom, List.map_cons] at h
    unfold alookup at h
    by_cases hx : x.1 = a
    · rw [if_pos hx] at h
      injection h with h
      subst h
      simp only [List.length_cons]
      exact Nat.lt_succ_of_le (Nat.le_add_right k rest.length)
    · rw [if_neg hx] at h
      have := ih (k + 1) a i h
      simp only [List.length_cons]
      exact Nat.lt_of_lt_of_le this (by omega)

theorem ati_lookup_lt (vv : ValidatorVerifier) (a : Author) (i : Nat)
    (h : alookup vv.address_to_validator_index a = some i) :
    i < vv.address_to_validator_index.length := by
  have hlen : vv.address_to_validator_index.length = vv.votingPowers.length := by
    unfold ValidatorVerifier.address_to_validator_index
    simp [List.enum]
  unfold ValidatorVerifier.address_to_validator_index List.enum at h
  have := alookup_enumFrom_lt vv.votingPowers 0 a i h
  rw [hlen]
  omega

theorem initialDag_wf (vv : ValidatorVerifier) (s : DAGStorage) :
    DagWF (initialDag vv s) := by
  constructor
  · intro r row h
    simp [initialDag, alookup] at h
  · intro a i h
    exact ati_lookup_lt vv a i h


theorem add_node_success_wf (d : Dag) (n : CertifiedNode) (hw : DagWF d)
    (hs : (d.add_node n).1 = none) : DagWF ((d.add_node n).2) := by
  obtain ⟨i, st1, ha, h1, h2, hpar, hdup, hsave, heq⟩ :=
    add_node_success_inv d n hs
  rw [heq]
  constructor
  · intro r row h
    show row.length = d.author_to_index.length
    rw [alookup_insertLoaded] at h
    by_cases he : n.metadata.round = r
    · rw [if_pos he] at h
      injection h with h
      subst h
      rw [List.length_set]
      cases hr : alookup d.nodes_by_round r with
      | none => simp [hr]
      | some row0 =>
        simp only [hr, Option.getD_some]
        exact hw.1 r row0 hr
    · rw [if_neg he] at h
      exact hw.1 r row h
  · intro a j h
    exact hw.2 a j h

theorem add_node_success_sets (d : Dag) (n : CertifiedNode) (hw : DagWF d)
    (hs : (d.add_node n).1 = none) :
    ∃ i, alookup d.author_to_index n.metadata.author = some i ∧
      (d.add_node n).2.slotAt n.metadata.round i = some (.unordered n) := by
  obtain ⟨i, st1, ha, h1, h2, hpar, hdup, hsave, heq⟩ :=
    add_node_success_inv d n hs
  refine ⟨i, ha, ?_⟩
  rw [heq]
  apply (slotAt_eq_some _ n.metadata.round i _).mpr
  show ∃ row', alookup (insertLoaded d.author_to_index.length
      d.nodes_by_round i n.metadata.round n) n.metadata.round = some row' ∧
      row'.getD i none = some (.unordered n)
  rw [alookup_insertLoaded, if_pos rfl]
  refine ⟨_, rfl, ?_⟩
  apply getD_set_self
  cases hr : alookup d.nodes_by_round n.metadata.round with
  | none =>
    simp only [hr, Option.getD_none, List.length_replicate]
    exact hw.2 n.metadata.author i ha
  | some row0 =>
    simp only [hr, Option.getD_some]
    rw [hw.1 n.metadata.round row0 hr]
    exact hw.2 n.metadata.author i ha

theorem replay_cons_inv (d : Dag) (n : CertifiedNode)
    (rest : List CertifiedNode) (dr : Dag)
    (h : replay d (n :: rest) = some dr) :
    (d.add_node n).1 = none ∧ replay ((d.add_node n).2) rest = some dr := by
  unfold replay at h
  cases hadd : d.add_node n with
  | mk oe d1 =>
    rw [hadd] at h
    cases oe with
    | none => exact ⟨rfl, h⟩
    | some e => exact Option.noConfusion h

theorem add_node_success_ati (d : Dag) (n : CertifiedNode)
    (hs : (d.add_node n).1 = none) :
    (d.add_node n).2.author_to_index = d.author_to_index := by
  obtain ⟨i, st1, _, _, _, _, _, _, heq⟩ := add_node_success_inv d n hs
  rw [heq]

theorem replay_ati (l : List CertifiedNode) :
    ∀ (d dr : Dag), replay d l = some dr →
      dr.author_to_index = d.author_to_index := by
  induction l with
  | nil =>
    intro d dr h
    unfold replay at h
    injection h with h
    rw [← h]
  | cons n rest ih =>
    intro d dr h
    obtain ⟨hs, hrest⟩ := replay_cons_inv d n rest dr h
    rw [ih _ _ hrest, add_node_success_ati d n hs]

theorem replay_nbr (l : List CertifiedNode) :
    ∀ (d dr : Dag), replay d l = some dr →
      dr.nodes_by_round =
        l.foldl (loadStep d.author_to_index) d.nodes_by_round := by
  induction l with
  | nil =>
    intro d dr h
    unfold replay at h
    injection h with h
    rw [← h]
    rfl
  | cons n rest ih =>
    intro d dr h
    obtain ⟨hs, hrest⟩ := replay_cons_inv d n rest dr h
    obtain ⟨i, st1, ha, _, _, _, _, _, heq⟩ := add_node_success_inv d n hs
    have hstep : (d.add_node n).2.nodes_by_round =
        loadStep d.author_to_index d.nodes_by_round n := by
      rw [heq]
      unfold loadStep
      rw [ha]
    have hati : (d.add_node n).2.author_to_index = d.author_to_index :=
      add_node_success_ati d n hs
    rw [ih _ _ hrest, hati, hstep]
    rfl

theorem replay_wf (l : List CertifiedNode) :
    ∀ (d dr : Dag), DagWF d → replay d l = some dr → DagWF dr := by
  induction l with
  | nil =>
    intro d dr hw h
    unfold replay at h
    injection h with h
    rw [← h]
    exact hw
  | cons n rest ih =>
    intro d dr hw h
    obtain ⟨hs, hrest⟩ := replay_cons_inv d n rest dr h
    exact ih _ _ (add_node_success_wf d n hw hs) hrest


theorem replay_slot_none (l : List CertifiedNode) :
    ∀ (d dr : Dag), DagWF d → replay d l = some dr →
      ∀ n ∈ l, ∃ i, alookup d.author_to_index n.metadata.author = some i ∧
        d.slotAt n.metadata.round i = none := by
  induction l with
  | nil =>
    intro d dr _ _ n hn
    exact absurd hn (List.not_mem_nil n)
  | cons x rest ih =>
    intro d dr hw h n hn
    obtain ⟨hs, hrest⟩ := replay_cons_inv d x rest dr h
    rcases List.mem_cons.mp hn with he | hm
    · subst he
      obtain ⟨i, st1, ha, _, _, _, hdup, _, _⟩ := add_node_success_inv d n hs
      refine ⟨i, ha, ?_⟩
      cases hopt : d.slotAt n.metadata.round i with
      | none => rfl
      | some s =>
        rw [hopt] at hdup
        simp at hdup
    · have hw1 := add_node_success_wf d x hw hs
      obtain ⟨i, ha1, hnone1⟩ := ih _ _ hw1 hrest n hm
      have hati := add_node_success_ati d x hs
      rw [hati] at ha1
      refine ⟨i, ha1, ?_⟩
      cases hopt : d.slotAt n.metadata.round i with
      | none => rfl
      | some s =>
        exfalso
        have hpres :=
          add_node_success_slot_preserved d x hs n.metadata.round i s hopt
        rw [hpres] at hnone1
        exact Option.noConfusion hnone1

theorem replay_pairwise (l : List CertifiedNode) :
    ∀ (d dr : Dag), DagWF d → replay d l = some dr →
      l.Pairwise (fun a b =>
        nodeKey d.author_to_index a ≠ nodeKey d.author_to_index b) := by
  induction l with
  | nil =>
    intro d dr _ _
    exact List.Pairwise.nil
  | cons x rest ih =>
    intro d dr hw h
    obtain ⟨hs, hrest⟩ := replay_cons_inv d x rest dr h
    have hw1 := add_node_success_wf d x hw hs
    have hati := add_node_success_ati d x hs
    constructor
    · intro n hn hkey
      obtain ⟨ix, hax, hset⟩ := add_node_success_sets d x hw hs
      obtain ⟨inn, han, hnone⟩ := replay_slot_none rest _ _ hw1 hrest n hn
      rw [hati] at han
      have hkx : nodeKey d.author_to_index x = (x.metadata.round, ix) := by
        unfold nodeKey
        rw [hax]
        rfl
      have hkn : nodeKey d.author_to_index n = (n.metadata.round, inn) := by
        unfold nodeKey
        rw [han]
        rfl
      rw [hkx, hkn] at hkey
      have h1 : x.metadata.round = n.metadata.round := congrArg Prod.fst hkey
      have h2 : ix = inn := congrArg Prod.snd hkey
      rw [← h1, ← h2] at hnone
      rw [hset] at hnone
      exact Option.noConfusion hnone
    · have hp := ih _ _ hw1 hrest
      simp only [hati] at hp
      exact hp


theorem applyRound_perm :
    ∀ (l₁ l₂ : List (Nat × CertifiedNode)), l₁.Perm l₂ →
      l₁.Pairwise (fun a b => a.1 ≠ b.1) →
      ∀ row, applyRound row l₁ = applyRound row l₂ := by
  intro l₁ l₂ h
  induction h with
  | nil =>
    intro _ row
    rfl
  | cons x h' ih =>
    intro hd row
    obtain ⟨i, n⟩ := x
    have hd' := (List.pairwise_cons.mp hd).2
    show applyRound (row.set i (some (.unordered n))) _ =
      applyRound (row.set i (some (.unordered n))) _
    exact ih hd' _
  | swap x y l =>
    intro hd row
    obtain ⟨ix, nx⟩ := x
    obtain ⟨iy, ny⟩ := y
    have hxy : iy ≠ ix :=
      (List.pairwise_cons.mp hd).1 (ix, nx) (List.mem_cons_self _ _)
    show applyRound ((row.set iy (some (.unordered ny))).set ix
        (some (.unordered nx))) l =
      applyRound ((row.set ix (some (.unordered nx))).set iy
        (some (.unordered ny))) l
    rw [List.set_comm _ _ row hxy]
  | trans h₁ h₂ ih₁ ih₂ =>
    intro hd row
    have hd₂ := (h₁.pairwise_iff (fun hab hba => hab hba.symm)).mp hd
    rw [ih₁ hd row, ih₂ hd₂ row]

theorem roundItems_cons (ati : List (Author × Nat)) (r : Round)
    (n : CertifiedNode) (rest : List CertifiedNode) :
    roundItems ati r (n :: rest) =
      if n.metadata.round = r
      then ((alookup ati n.metadata.author).getD 0, n) :: roundItems ati r rest
      else roundItems ati r rest := by
  unfold roundItems
  by_cases he : n.metadata.round = r
  · simp [he]
  · simp [he]

theorem roundItems_perm (ati : List (Author × Nat)) (r : Round)
    {l₁ l₂ : List CertifiedNode} (h : l₁.Perm l₂) :
    (roundItems ati r l₁).Perm (roundItems ati r l₂) :=
  (h.filter _).map _

theorem mem_roundItems (ati : List (Author × Nat)) (r : Round)
    (l : List CertifiedNode) (p : Nat × CertifiedNode) :
    p ∈ roundItems ati r l ↔
      ∃ n ∈ l, n.metadata.round = r ∧
        p = ((alookup ati n.metadata.author).getD 0, n) := by
  unfold roundItems
  simp only [List.mem_map, List.mem_filter, decide_eq_true_eq]
  constructor
  · rintro ⟨n, ⟨hn, hr⟩, hp⟩
    exact ⟨n, hn, hr, hp.symm⟩
  · rintro ⟨n, hn, hr, hp⟩
    exact ⟨n, ⟨hn, hr⟩, hp.symm⟩

theorem roundItems_pairwise_idx (ati : List (Author × Nat)) (r : Round) :
    ∀ (l : List CertifiedNode),
      l.Pairwise (fun a b => nodeKey ati a ≠ nodeKey ati b) →
      (roundItems ati r l).Pairwise (fun a b => a.1 ≠ b.1) := by
  intro l
  induction l with
  | nil =>
    intro _
    unfold roundItems
    simp
  | cons n rest ih =>
    intro hp
    have hhead := (List.pairwise_cons.mp hp).1
    have htail := (List.pairwise_cons.mp hp).2
    rw [roundItems_cons]
    by_cases he : n.metadata.round = r
    · rw [if_pos he]
      constructor
      · intro p hp2 heq
        obtain ⟨m', hm', hmr, hpe⟩ := (mem_roundItems ati r rest p).mp hp2
        have hj : p.1 = (alookup ati m'.metadata.author).getD 0 :=
          congrArg Prod.fst hpe
        apply hhead m' hm'
        unfold nodeKey
        rw [he, hmr]
        rw [hj] at heq
        have heq2 : (alookup ati n.metadata.author).getD 0 =
            (alookup ati m'.metadata.author).getD 0 := heq
        rw [heq2]
      · exact ih htail
    · rw [if_neg he]
      exact ih htail

theorem currentEpochNodes_cons (ep : Epoch) (dig : Digest)
    (cn : CertifiedNode) (rest : List (Digest × CertifiedNode)) :
    currentEpochNodes ep ((dig, cn) :: rest) =
      if cn.metadata.epoch = ep then cn :: currentEpochNodes ep rest
      else currentEpochNodes ep rest := by
  unfold currentEpochNodes
  by_cases he : cn.metadata.epoch = ep
  · simp [he]
  · simp [he]

theorem mem_currentEpochNodes (ep : Epoch)
    (l : List (Digest × CertifiedNode)) (n : CertifiedNode) :
    n ∈ currentEpochNodes ep l ↔
      ∃ dig, (dig, n) ∈ l ∧ n.metadata.epoch = ep := by
  unfold currentEpochNodes
  simp only [List.mem_map, List.mem_filter, decide_eq_true_eq]
  constructor
  · rintro ⟨⟨dig, cn⟩, ⟨hmem, hep⟩, hsnd⟩
    subst hsnd
    exact ⟨dig, hmem, hep⟩
  · rintro ⟨dig, hmem, hep⟩
    exact ⟨(dig, n), ⟨hmem, hep⟩, rfl⟩


theorem alookup_foldl_loadStep (ati : List (Author × Nat)) :
    ∀ (l : List CertifiedNode),
      (∀ n ∈ l, (alookup ati n.metadata.author).isSome = true) →
      ∀ (m : NodesByRound) (r : Round),
        alookup (l.foldl (loadStep ati) m) r =
          match alookup m r with
          | some row => some (applyRound row (roundItems ati r l))
          | none =>
            if roundItems ati r l = [] then none
            else some (applyRound (List.replicate ati.length none)
              (roundItems ati r l)) := by
  intro l
  induction l with
  | nil =>
    intro _ m r
    simp only [List.foldl_nil]
    cases hr : alookup m r with
    | some row => rfl
    | none => rfl
  | cons n rest ih =>
    intro hknown m r
    have hkn : (alookup ati n.metadata.author).isSome = true :=
      hknown n (List.mem_cons_self _ _)
    obtain ⟨i, ha⟩ := Option.isSome_iff_exists.mp hkn
    have hstep : loadStep ati m n =
        insertLoaded ati.length m i n.metadata.round n := by
      unfold loadStep
      rw [ha]
    have hgd : (alookup ati n.metadata.author).getD 0 = i := by
      rw [ha]
      rfl
    rw [List.foldl_cons, hstep,
      ih (fun q hq => hknown q (List.mem_cons_of_mem _ hq)),
      roundItems_cons, hgd, alookup_insertLoaded]
    by_cases he : n.metadata.round = r
    · rw [if_pos he, if_pos he]
      cases hr : alookup m r with
      | some row =>
        simp only [Option.getD_some]
        rfl
      | none =>
        simp only [Option.getD_none]
        rw [if_neg (List.cons_ne_nil _ _)]
        rfl
    · rw [if_neg he, if_neg he]

theorem newLoop_some_nbr (ati : List (Author × Nat)) (ep : Epoch) :
    ∀ (l : List (Digest × CertifiedNode)) (m : NodesByRound)
      (exp : List Digest) (m' : NodesByRound) (exp' : List Digest),
      newLoop ati ep l m exp = some (m', exp') →
      m' = (currentEpochNodes ep l).foldl (loadStep ati) m := by
  intro l
  induction l with
  | nil =>
    intro m exp m' exp' h
    unfold newLoop at h
    injection h with h
    have hm : m = m' := congrArg Prod.fst h
    rw [← hm]
    rfl
  | cons p rest ih =>
    intro m exp m' exp' h
    obtain ⟨dig, cn⟩ := p
    unfold newLoop at h
    by_cases he : cn.metadata.epoch = ep
    · rw [if_pos he] at h
      cases hl : alookup ati cn.metadata.author with
      | none =>
        rw [hl] at h
        exact absurd h (by simp)
      | some i =>
        rw [hl] at h
        have hrec := ih _ _ _ _ h
        rw [currentEpochNodes_cons, if_pos he, List.foldl_cons]
        have hstep : loadStep ati m cn =
            insertLoaded ati.length m i cn.metadata.round cn := by
          unfold loadStep
          rw [hl]
        rw [hstep]
        exact hrec
    · rw [if_neg he] at h
      have hrec := ih _ _ _ _ h
      rw [currentEpochNodes_cons, if_neg he]
      exact hrec

theorem new_shape (epoch : Epoch) (vv : ValidatorVerifier)
    (storage : DAGStorage) (d : Dag)
    (h : Dag.new epoch vv storage = some d) :
    d.nodes_by_round =
      (currentEpochNodes epoch storage.get_certified_nodes).foldl
        (loadStep vv.address_to_validator_index) [] ∧
    d.author_to_index = vv.address_to_validator_index := by
  have h2 : (match newLoop vv.address_to_validator_index epoch
      storage.get_certified_nodes [] [] with
    | none => none
    | some (nodes_by_round, expired) =>
      some
        ({ nodes_by_round := nodes_by_round,
           author_to_index := vv.address_to_validator_index,
           storage := storage.delete_certified_nodes expired } : Dag)) =
      some d := h
  cases hnl : newLoop vv.address_to_validator_index epoch
      storage.get_certified_nodes [] [] with
  | none =>
    rw [hnl] at h2
    exact absurd h2 (by simp)
  | some pr =>
    obtain ⟨nbr, expired⟩ := pr
    rw [hnl] at h2
    simp only [Option.some.injEq] at h2
    have hnbr := newLoop_some_nbr vv.address_to_validator_index epoch
      storage.get_certified_nodes [] [] nbr expired hnl
    rw [← h2]
    exact ⟨hnbr, rfl⟩

theorem new_known_authors (epoch : Epoch) (vv : ValidatorVerifier)
    (storage : DAGStorage) (d : Dag)
    (h : Dag.new epoch vv storage = some d) :
    ∀ n ∈ currentEpochNodes epoch storage.get_certified_nodes,
      (alookup vv.address_to_validator_index n.metadata.author).isSome
        = true := by
  intro n hn
  cases hq : alookup vv.address_to_validator_index n.metadata.author with
  | some i => rfl
  | none =>
    exfalso
    obtain ⟨dig, hmem, hep⟩ := (mem_currentEpochNodes epoch
      storage.get_certified_nodes n).mp hn
    have hex : ∃ p ∈ storage.get_certified_nodes,
        p.2.metadata.epoch = epoch ∧
        alookup vv.address_to_validator_index p.2.metadata.author = none :=
      ⟨(dig, n), hmem, hep, hq⟩
    have hnone := (newLoop_eq_none_iff vv.address_to_validator_index epoch
      storage.get_certified_nodes [] []).mpr hex
    have h2 : (match newLoop vv.address_to_validator_index epoch
        storage.get_certified_nodes [] [] with
      | none => none
      | some (nodes_by_round, expired) =>
        some
          ({ nodes_by_round := nodes_by_round,
             author_to_index := vv.address_to_validator_index,
             storage := storage.delete_certified_nodes expired } : Dag)) =
        some d := h
    rw [hnone] at h2
    exact Option.noConfusion h2


/-- C7: constructing a `Dag` from a persisted node set yields exactly the
same observable state — `lowest_round`, `highest_round`, and `exists` for
every metadata — as an empty `Dag` into which each current-epoch persisted
node is admitted individually via `add_node` in round order (stale-epoch
nodes excluded), whenever that round-ordered replay admits every node. -/
theorem claim_C7 (epoch : Epoch) (vv : ValidatorVerifier)
    (storage s0 : DAGStorage) (d dr : Dag)
    (hnew : Dag.new epoch vv storage = some d)
    (hrep : replay (initialDag vv s0)
      (sortByRound (currentEpochNodes epoch storage.get_certified_nodes)) =
      some dr) :
    d.lowest_round = dr.lowest_round ∧
    d.highest_round = dr.highest_round ∧
    (∀ m, d.node_exists m = dr.node_exists m) := by
  obtain ⟨hdnbr, hdati⟩ := new_shape epoch vv storage d hnew
  have hdrati : dr.author_to_index = vv.address_to_validator_index :=
    replay_ati _ _ _ hrep
  have hdrnbr : dr.nodes_by_round =
      (sortByRound (currentEpochNodes epoch
        storage.get_certified_nodes)).foldl
        (loadStep vv.address_to_validator_index) [] :=
    replay_nbr _ _ _ hrep
  have hknown_cur := new_known_authors epoch vv storage d hnew
  have hperm_sort : (sortByRound (currentEpochNodes epoch
      storage.get_certified_nodes)).Perm
      (currentEpochNodes epoch storage.get_certified_nodes) :=
    List.perm_insertionSort _ _
  have hknown_sorted : ∀ n ∈ sortByRound (currentEpochNodes epoch
      storage.get_certified_nodes),
      (alookup vv.address_to_validator_index n.metadata.author).isSome
        = true :=
    fun n hn => hknown_cur n (hperm_sort.mem_iff.mp hn)
  have hpair : (sortByRound (currentEpochNodes epoch
      storage.get_certified_nodes)).Pairwise
      (fun a b => nodeKey vv.address_to_validator_index a ≠
        nodeKey vv.address_to_validator_index b) :=
    replay_pairwise _ (initialDag vv s0) dr (initialDag_wf vv s0) hrep
  have hrows : ∀ r, alookup d.nodes_by_round r =
      alookup dr.nodes_by_round r := by
    intro r
    rw [hdnbr, hdrnbr,
      alookup_foldl_loadStep vv.address_to_validator_index _ hknown_cur [] r,
      alookup_foldl_loadStep vv.address_to_validator_index _ hknown_sorted
        [] r]
    have hitems : (roundItems vv.address_to_validator_index r
        (sortByRound (currentEpochNodes epoch
          storage.get_certified_nodes))).Perm
        (roundItems vv.address_to_validator_index r
          (currentEpochNodes epoch storage.get_certified_nodes)) :=
      roundItems_perm _ r hperm_sort
    show (if roundItems vv.address_to_validator_index r
        (currentEpochNodes epoch storage.get_certified_nodes) = []
      then none
      else some (applyRound
        (List.replicate vv.address_to_validator_index.length none)
        (roundItems vv.address_to_validator_index r
          (currentEpochNodes epoch storage.get_certified_nodes)))) = _
    by_cases hemp : roundItems vv.address_to_validator_index r
        (currentEpochNodes epoch storage.get_certified_nodes) = []
    · have hemp2 : roundItems vv.address_to_validator_index r
          (sortByRound (currentEpochNodes epoch
            storage.get_certified_nodes)) = [] := by
        rw [hemp] at hitems
        exact hitems.eq_nil
      rw [if_pos hemp]
      show _ = (if roundItems vv.address_to_validator_index r
          (sortByRound (currentEpochNodes epoch
            storage.get_certified_nodes)) = []
        then none
        else some (applyRound
          (List.replicate vv.address_to_validator_index.length none)
          (roundItems vv.address_to_validator_index r
            (sortByRound (currentEpochNodes epoch
              storage.get_certified_nodes)))))
      rw [if_pos hemp2]
    · have hemp2 : ¬ roundItems vv.address_to_validator_index r
          (sortByRound (currentEpochNodes epoch
            storage.get_certified_nodes)) = [] := by
        intro he
        rw [he] at hitems
        exact hemp (hitems.symm.eq_nil)
      rw [if_neg hemp]
      show _ = (if roundItems vv.address_to_validator_index r
          (sortByRound (currentEpochNodes epoch
            storage.get_certified_nodes)) = []
        then none
        else some (applyRound
          (List.replicate vv.address_to_validator_index.length none)
          (roundItems vv.address_to_validator_index r
            (sortByRound (currentEpochNodes epoch
              storage.get_certified_nodes)))))
      rw [if_neg hemp2]
      exact congrArg some
        ((applyRound_perm _ _ hitems
          (roundItems_pairwise_idx _ r _ hpair) _).symm)
  have hmemkeys : ∀ r, r ∈ d.nodes_by_round.map Prod.fst ↔
      r ∈ dr.nodes_by_round.map Prod.fst := by
    intro r
    rw [← alookup_isSome_iff_mem, ← alookup_isSome_iff_mem, hrows r]
  refine ⟨?_, ?_, ?_⟩
  · unfold Dag.lowest_round
    rw [minKey_congr _ _ hmemkeys]
  · unfold Dag.highest_round
    rw [maxKey_congr _ _ hmemkeys]
  · intro m
    unfold Dag.node_exists Dag.get_node_ref
    rw [hdati, hdrati]
    cases hq : alookup vv.address_to_validator_index m.author with
    | none => rfl
    | some i =>
      rw [hrows m.round]

/-- Witness for C7 at `exStored`: rehydration and round-ordered replay agree
on the observables. -/
theorem claim_C7_witness :
    exNewDag.lowest_round = exReplayDag.lowest_round ∧
    exNewDag.highest_round = exReplayDag.highest_round ∧
    exNewDag.node_exists ⟨0, 1, 0⟩ = exReplayDag.node_exists ⟨0, 1, 0⟩ := by
  have h := claim_C7 0 exVV exStored exStorageOK exNewDag exReplayDag rfl rfl
  exact ⟨h.1, h.2.1, h.2.2 ⟨0, 1, 0⟩⟩

end DagStore
